import Mathlib

/-!
Verification of the bookmark-tracking core of a VS Code bookmarks extension
(`src/extension.ts`).  The extension keeps, per file, an ordered list of
bookmarks (line, column, label), adjusts them on text edits, persists them,
and navigates between them.

The file `extension.ts` is the glue layer; the companion package
`vscode-bookmarks-core` (the `BookmarkedFile` / `BookmarksController` /
`Sticky` classes) is not part of this repository snapshot, so those
operations are modelled from the specification (each such definition carries
a doc comment starting with "Modelled from the spec:").  Everything else is
a direct shallow embedding of the TypeScript in `extension.ts`.
-/

namespace Bookmarks

/-- A bookmark: 0-based `line` and `column`, `label` empty when unlabeled
(data model of the spec; mirrors the objects stored in
`bookmarks.activeBookmark.bookmarks`). -/
structure Bookmark where
  line : Nat
  column : Nat
  label : String
deriving DecidableEq, Repr

/-- A cursor / reveal position, mirroring `vscode.Position`
(`line`, `character`). -/
structure Pos where
  line : Nat
  character : Nat
deriving DecidableEq, Repr

/-- Modelled from the spec: `indexOfBookmark(line) -> index or -1`, a linear
search over the current entries of a file bookmark set (the
`BookmarkedFile.indexOfBookmark` method of the missing core package; the
call sites in `extension.ts` look bookmarks up by their `line` key). -/
def indexOfBookmark : List Bookmark → Nat → Int
  | [], _ => -1
  | b :: rest, l =>
    if b.line = l then 0
    else
      let i := indexOfBookmark rest l
      if i < 0 then -1 else i + 1

/-- Removing the first bookmark whose `line` equals `l`; auxiliary
characterisation of `splice(indexOfBookmark(line), 1)`. -/
def removeFirstLine : List Bookmark → Nat → List Bookmark
  | [], _ => []
  | b :: rest, l => if b.line = l then rest else b :: removeFirstLine rest l

/-- JavaScript `array.splice(i, 1)` : a negative index counts from the end
(clamped at 0), an index past the end removes nothing. -/
def spliceOne (bks : List Bookmark) (i : Int) : List Bookmark :=
  if i < 0 then bks.eraseIdx (bks.length - (-i).toNat)
  else bks.eraseIdx i.toNat

/-- The removal loop of `updateDecorations` (extension.ts lines 186-192):
for each invalid element, look its index up with `indexOfBookmark` and
`splice` it out. -/
def removeInvalids : List Bookmark → List Bookmark → List Bookmark
  | bks, [] => bks
  | bks, e :: rest => removeInvalids (spliceOne bks (indexOfBookmark bks e.line)) rest

/-- Result of an `updateDecorations` pass: the new bookmark list of the
active file and the lines handed to `setDecorations`. -/
structure DecoResult where
  bookmarks : List Bookmark
  decorations : List Nat
deriving DecidableEq, Repr

/-- Shallow embedding of `updateDecorations` (extension.ts lines 153-195),
restricted to its effect on the active file's bookmark list and the
decoration ranges.  `lineCount` is `activeEditor.document.lineCount` and
`line0Text` is `activeEditor.document.lineAt(0).text`.
Branches, in source order: empty bookmark list → draw nothing; document
reduced to a single empty line → clear all bookmarks of the file; otherwise
draw every bookmark with `line <= lineCount` and splice out the rest. -/
def updateDecorations (lineCount : Nat) (line0Text : String) (bks : List Bookmark) : DecoResult :=
  if bks.length = 0 then ⟨bks, []⟩
  else if lineCount = 1 ∧ line0Text = "" then ⟨[], []⟩
  else
    let books := (bks.filter (fun b => decide (b.line ≤ lineCount))).map Bookmark.line
    let invalids := bks.filter (fun b => !decide (b.line ≤ lineCount))
    ⟨removeInvalids bks invalids, books⟩

/-! Lookup lemmas for `indexOfBookmark`. -/

theorem indexOfBookmark_nonneg_iff (bks : List Bookmark) (l : Nat) :
    0 ≤ indexOfBookmark bks l ↔ l ∈ bks.map Bookmark.line := by
  induction bks with
  | nil => simp [indexOfBookmark]
  | cons b rest ih =>
    simp only [indexOfBookmark, List.map_cons, List.mem_cons]
    by_cases hb : b.line = l
    · simp [hb]
    · simp only [if_neg hb]
      constructor
      · intro h
        by_cases hrest : indexOfBookmark rest l < 0
        · simp [if_pos hrest] at h
        · exact Or.inr (ih.mp (Int.not_lt.mp hrest))
      · intro h
        rcases h with h | h
        · exact absurd h.symm hb
        · have hr := ih.mpr h
          have : ¬ indexOfBookmark rest l < 0 := Int.not_lt.mpr hr
          simp only [if_neg this]
          omega

theorem indexOfBookmark_toNat_lt (bks : List Bookmark) (l : Nat)
    (h : 0 ≤ indexOfBookmark bks l) : (indexOfBookmark bks l).toNat < bks.length := by
  induction bks with
  | nil => simp [indexOfBookmark] at h
  | cons b rest ih =>
    simp only [indexOfBookmark] at h ⊢
    by_cases hb : b.line = l
    · simp [hb]
    · simp only [if_neg hb] at h ⊢
      by_cases hrest : indexOfBookmark rest l < 0
      · simp [if_pos hrest] at h
      · have hr := ih (Int.not_lt.mp hrest)
        simp only [if_neg hrest]
        simp only [List.length_cons]
        omega

theorem eraseIdx_indexOfBookmark (bks : List Bookmark) (l : Nat)
    (h : 0 ≤ indexOfBookmark bks l) :
    bks.eraseIdx (indexOfBookmark bks l).toNat = removeFirstLine bks l := by
  induction bks with
  | nil => simp [removeFirstLine]
  | cons b rest ih =>
    simp only [indexOfBookmark, removeFirstLine] at h ⊢
    by_cases hb : b.line = l
    · simp [hb, List.eraseIdx]
    · simp only [if_neg hb] at h ⊢
      by_cases hrest : indexOfBookmark rest l < 0
      · simp [if_pos hrest] at h
      · have h0 : 0 ≤ indexOfBookmark rest l := Int.not_lt.mp hrest
        simp only [if_neg hrest]
        have htn : (indexOfBookmark rest l + 1).toNat = (indexOfBookmark rest l).toNat + 1 := by
          omega
        rw [htn]
        simp [List.eraseIdx, ih h0]

theorem spliceOne_indexOfBookmark (bks : List Bookmark) (l : Nat)
    (h : l ∈ bks.map Bookmark.line) :
    spliceOne bks (indexOfBookmark bks l) = removeFirstLine bks l := by
  have h0 : 0 ≤ indexOfBookmark bks l := (indexOfBookmark_nonneg_iff bks l).mpr h
  unfold spliceOne
  rw [if_neg (Int.not_lt.mpr h0)]
  exact eraseIdx_indexOfBookmark bks l h0

theorem removeFirstLine_map_line (bks : List Bookmark) (l : Nat) :
    (removeFirstLine bks l).map Bookmark.line = (bks.map Bookmark.line).erase l := by
  induction bks with
  | nil => simp [removeFirstLine]
  | cons b rest ih =>
    by_cases hb : b.line = l
    · simp [removeFirstLine, hb, List.erase_cons]
    · simp [removeFirstLine, hb, List.erase_cons, ih]

theorem removeFirstLine_sublist (bks : List Bookmark) (l : Nat) :
    (removeFirstLine bks l).Sublist bks := by
  induction bks with
  | nil => simp [removeFirstLine]
  | cons b rest ih =>
    by_cases hb : b.line = l
    · simp only [removeFirstLine, if_pos hb]
      exact List.sublist_cons_self b rest
    · simp only [removeFirstLine, if_neg hb]
      exact ih.cons₂ b

/-- The removal loop leaves only bookmarks with `line ≤ lineCount`, provided
the file set respects the at-most-one-bookmark-per-line invariant and the
invalid list is exactly (up to the stated conditions) the out-of-range part
of the set. -/
theorem removeInvalids_valid (lineCount : Nat) : ∀ invs bks : List Bookmark,
    (bks.map Bookmark.line).Nodup →
    (invs.map Bookmark.line).Nodup →
    (∀ e ∈ invs, e.line ∈ bks.map Bookmark.line) →
    (∀ b ∈ bks, lineCount < b.line → b.line ∈ invs.map Bookmark.line) →
    ∀ b ∈ removeInvalids bks invs, b.line ≤ lineCount := by
  intro invs
  induction invs with
  | nil =>
    intro bks _ _ _ hcover b hb
    by_contra hlt
    have := hcover b hb (Nat.not_le.mp hlt)
    simp at this
  | cons e rest ih =>
    intro bks hnodup hinodup hmem hcover b hb
    have hino : e.line ∉ rest.map Bookmark.line ∧ (rest.map Bookmark.line).Nodup := by
      rw [List.map_cons, List.nodup_cons] at hinodup
      exact hinodup
    have hel : e.line ∈ bks.map Bookmark.line := hmem e (List.mem_cons_self e rest)
    rw [removeInvalids, spliceOne_indexOfBookmark bks e.line hel] at hb
    refine ih (removeFirstLine bks e.line) ?_ ?_ ?_ ?_ b hb
    · exact hnodup.sublist ((removeFirstLine_sublist bks e.line).map Bookmark.line)
    · exact hino.2
    · intro x hx
      have hxne : x.line ≠ e.line := by
        intro hEq
        exact hino.1 (hEq ▸ List.mem_map_of_mem Bookmark.line hx)
      rw [removeFirstLine_map_line]
      exact (List.mem_erase_of_ne hxne).mpr (hmem x (List.mem_cons_of_mem e hx))
    · intro x hx hxlt
      have hxbks : x ∈ bks := (removeFirstLine_sublist bks e.line).mem hx
      have hxl := hcover x hxbks hxlt
      simp only [List.map_cons, List.mem_cons] at hxl
      rcases hxl with hxl | hxl
      · exfalso
        have hxmem : x.line ∈ (removeFirstLine bks e.line).map Bookmark.line :=
          List.mem_map_of_mem Bookmark.line hx
        rw [removeFirstLine_map_line] at hxmem
        rw [hxl] at hxmem
        exact (hnodup.not_mem_erase hxmem)
      · exact hxl

theorem removeInvalids_sublist : ∀ invs bks : List Bookmark,
    (removeInvalids bks invs).Sublist bks := by
  intro invs
  induction invs with
  | nil => intro bks; simp [removeInvalids]
  | cons e rest ih =>
    intro bks
    rw [removeInvalids]
    refine (ih _).trans ?_
    unfold spliceOne
    split <;> exact List.eraseIdx_sublist ..

/-- The bookmark list produced by an `updateDecorations` pass is always a
sublist of the input list: surviving bookmarks are unchanged, the pass only
drops entries. -/
theorem updateDecorations_sublist (lineCount : Nat) (line0Text : String) (bks : List Bookmark) :
    (updateDecorations lineCount line0Text bks).bookmarks.Sublist bks := by
  unfold updateDecorations
  split
  · exact List.Sublist.refl bks
  · split
    · exact List.nil_sublist bks
    · exact removeInvalids_sublist _ bks

/-- C1: after `updateDecorations` runs over the active file's bookmark set,
every bookmark whose line index exceeds the new document line count has been
removed by the caller-side pass; equivalently every remaining bookmark has
`line ≤ lineCount` (the validity test used at extension.ts line 178), given
the at-most-one-bookmark-per-line invariant of the set. -/
theorem c1_updateDecorations_removes_out_of_range
    (lineCount : Nat) (line0Text : String) (bks : List Bookmark)
    (hnodup : (bks.map Bookmark.line).Nodup) :
    ∀ b ∈ (updateDecorations lineCount line0Text bks).bookmarks, b.line ≤ lineCount := by
  intro b hb
  unfold updateDecorations at hb
  by_cases h0 : bks.length = 0
  · rw [if_pos h0] at hb
    rw [List.length_eq_zero.mp h0] at hb
    simp at hb
  · rw [if_neg h0] at hb
    by_cases h1 : lineCount = 1 ∧ line0Text = ""
    · rw [if_pos h1] at hb
      simp at hb
    · rw [if_neg h1] at hb
      simp only at hb
      refine removeInvalids_valid lineCount
        (bks.filter (fun b => !decide (b.line ≤ lineCount))) bks hnodup ?_ ?_ ?_ b hb
      · exact hnodup.sublist ((List.filter_sublist bks).map Bookmark.line)
      · intro e he
        exact List.mem_map_of_mem Bookmark.line (List.mem_of_mem_filter he)
      · intro x hx hxlt
        refine List.mem_map_of_mem Bookmark.line (List.mem_filter.mpr ⟨hx, ?_⟩)
        simp [Nat.not_le.mpr hxlt]

/-- Witness for C1: with a two-line document, the surviving bookmark of
`[⟨1,0,""⟩, ⟨5,0,""⟩]` is in range. -/
theorem c1_witness :
    Bookmark.line ⟨1, 0, ""⟩ ≤ 2 :=
  c1_updateDecorations_removes_out_of_range 2 "x" [⟨1, 0, ""⟩, ⟨5, 0, ""⟩]
    (by decide) ⟨1, 0, ""⟩ (by decide)

/-- C2: when the active document has been reduced to a single line whose
text is empty, the `updateDecorations` pass clears every bookmark of the
file (extension.ts lines 171-173). -/
theorem c2_empty_document_clears (bks : List Bookmark) :
    (updateDecorations 1 "" bks).bookmarks = [] := by
  unfold updateDecorations
  by_cases h0 : bks.length = 0
  · rw [if_pos h0, List.length_eq_zero.mp h0]
  · rw [if_neg h0, if_pos ⟨rfl, rfl⟩]

/-! ## Persistence: `loadWorkspaceState` (extension.ts lines 296-324) -/

/-- The bookmark store, a mapping from file path to its bookmark list
(insertion order preserved), as persisted and as iterated by the
cross-file navigation. -/
abbrev Store := List (String × List Bookmark)

/-- `new BookmarksController("")`: the empty store. -/
def emptyStore : Store := []

/-- Outcome of a completed (non-throwing) `loadWorkspaceState` call: the
store contents afterwards, whether `showErrorMessage` ran, and the returned
boolean. -/
structure LoadOutcome where
  store : Store
  errorMessageShown : Bool
  returned : Bool
deriving DecidableEq, Repr

/-- Shallow embedding of `loadWorkspaceState` (extension.ts lines 296-324).
`saveBookmarksInProject` is the result of `canSaveBookmarksInProject()`;
`hasWorkspaceFolders` is `vscode.workspace.workspaceFolders` being present;
`projectFile` is `none` when `.vscode/bookmarks.json` does not exist and
otherwise holds the outcome of `JSON.parse` + `loadFrom` on its contents;
`savedBookmarks` is `none` when `context.workspaceState.get("bookmarks","")`
is the empty-string default and otherwise holds the outcome of `JSON.parse`
+ `loadFrom` on the stored string.  An `Except.error` result of the whole
function models an exception propagating to the caller. -/
def loadWorkspaceState (saveBookmarksInProject : Bool) (hasWorkspaceFolders : Bool)
    (projectFile : Option (Except String Store))
    (savedBookmarks : Option (Except String Store)) : Except String LoadOutcome :=
  if saveBookmarksInProject then
    if !hasWorkspaceFolders then .ok ⟨emptyStore, false, false⟩
    else
      match projectFile with
      | none => .ok ⟨emptyStore, false, false⟩
      | some (.ok s) => .ok ⟨s, false, true⟩
      | some (.error _) => .ok ⟨emptyStore, true, false⟩
  else
    match savedBookmarks with
    | none => .ok ⟨emptyStore, false, false⟩
    | some (.ok s) => .ok ⟨s, false, true⟩
    | some (.error e) => .error e

/-- C3 counterexample: in the workspace-state branch (extension.ts lines
317-323) `JSON.parse(savedBookmarks)` is not wrapped in try/catch, so
malformed JSON propagates an exception to the caller of
`loadWorkspaceState`, contradicting the claim that neither branch ever
propagates one. -/
theorem c3_counterexample :
    loadWorkspaceState false true none (some (.error "SyntaxError: Unexpected token")) =
      .error "SyntaxError: Unexpected token" := rfl

/-- C3 amended: a missing persistence source always yields the empty store
with `false` returned, and the project-file branch never propagates an
exception — malformed project JSON is surfaced via `showErrorMessage` with
the store left empty; only the workspace-state branch re-throws on malformed
JSON. -/
theorem c3_load_tolerates_missing_and_malformed :
    ∀ (hasWorkspaceFolders : Bool) (projectFile savedBookmarks : Option (Except String Store))
      (e : String),
    (∀ msg, loadWorkspaceState true hasWorkspaceFolders projectFile savedBookmarks ≠ .error msg) ∧
    loadWorkspaceState true hasWorkspaceFolders none savedBookmarks =
      .ok ⟨emptyStore, false, false⟩ ∧
    loadWorkspaceState true true (some (.error e)) savedBookmarks =
      .ok ⟨emptyStore, true, false⟩ ∧
    loadWorkspaceState false hasWorkspaceFolders projectFile none =
      .ok ⟨emptyStore, false, false⟩ := by
  intro hasWorkspaceFolders projectFile savedBookmarks e
  refine ⟨?_, ?_, rfl, rfl⟩
  · intro msg
    unfold loadWorkspaceState
    cases hasWorkspaceFolders with
    | false => simp
    | true =>
      simp only [Bool.not_true, if_pos rfl]
      match projectFile with
      | none => simp
      | some (.ok s) => simp
      | some (.error msg2) => simp
  · unfold loadWorkspaceState
    cases hasWorkspaceFolders <;> simp

/-- Witness for C3: the project-file branch with a missing file yields the
empty store without error. -/
theorem c3_witness :
    loadWorkspaceState true true none none = .ok ⟨emptyStore, false, false⟩ :=
  (c3_load_tolerates_missing_and_malformed true none none "x").2.1

/-! ## Sorting, toggle and labeled add
(`toggle` extension.ts lines 947-985, `askForBookmarkLabel` lines 905-945) -/

/-- The ordering used by the sort comparator in `toggle` and
`askForBookmarkLabel` (`n1.line > n2.line ? 1 : n1.line < n2.line ? -1 : 0`):
ascending by `line`. -/
def byLine (a b : Bookmark) : Prop := a.line ≤ b.line

instance : DecidableRel byLine := fun a b => inferInstanceAs (Decidable (a.line ≤ b.line))

instance : IsTotal Bookmark byLine := ⟨fun a b => Nat.le_total a.line b.line⟩

instance : IsTrans Bookmark byLine := ⟨fun _ _ _ h1 h2 => Nat.le_trans h1 h2⟩

/-- The `bookmarks.sort(...)` call at the end of `toggle` and of the
`askForBookmarkLabel` callback: a stable sort ascending by `line`. -/
def sortByLine (bks : List Bookmark) : List Bookmark := List.insertionSort byLine bks

/-- Modelled from the spec: error kinds of the File Bookmark Set operations
(`DuplicateLine` for `add`, `IndexOutOfRange` for `remove`). -/
inductive SetError
  | DuplicateLine
  | IndexOutOfRange
deriving DecidableEq, Repr

/-- Modelled from the spec: `add(position, label)` of the File Bookmark Set
(the `addBookmark` controller method of the missing core package) — inserts
a new Bookmark maintaining sort order, fails with `DuplicateLine` if one
already exists at that line. -/
def addBookmark (bks : List Bookmark) (line column : Nat) (label : String) :
    Except SetError (List Bookmark) :=
  if line ∈ bks.map Bookmark.line then .error .DuplicateLine
  else .ok (List.orderedInsert byLine ⟨line, column, label⟩ bks)

/-- Modelled from the spec: `remove(index)` of the File Bookmark Set (the
`removeBookmark` controller method of the missing core package) — removes by
index, fails with `IndexOutOfRange` if the index is invalid. -/
def removeBookmark (bks : List Bookmark) (index : Nat) : Except SetError (List Bookmark) :=
  if index < bks.length then .ok (bks.eraseIdx index) else .error .IndexOutOfRange

/-- The mutation performed by `toggle` (extension.ts lines 961-967) before
the final sort: look the cursor line up with `indexOfBookmark`; when absent
(`index < 0`) add a bookmark at the cursor position, otherwise remove the
one found.  A spec-level failure of `add`/`remove` leaves the set
unchanged. -/
def toggleRaw (line column : Nat) (bks : List Bookmark) : List Bookmark :=
  if indexOfBookmark bks line < 0 then
    match addBookmark bks line column "" with
    | .ok l => l
    | .error _ => bks
  else
    match removeBookmark bks (indexOfBookmark bks line).toNat with
    | .ok l => l
    | .error _ => bks

/-- `toggle` (extension.ts lines 947-985): the add-or-remove mutation
followed by the sort of lines 969-981. -/
def toggle (line column : Nat) (bks : List Bookmark) : List Bookmark :=
  sortByLine (toggleRaw line column bks)

/-- The `if (index >= 0) removeBookmark(...)` step of the
`askForBookmarkLabel` callback (extension.ts lines 921-923); a spec-level
`IndexOutOfRange` failure leaves the set unchanged. -/
def removeIfIndexed (index : Int) (bks : List Bookmark) : List Bookmark :=
  if 0 ≤ index then
    match removeBookmark bks index.toNat with
    | .ok l => l
    | .error _ => bks
  else bks

/-- The unconditional `addBookmark(position, bookmarkLabel)` step of the
`askForBookmarkLabel` callback (extension.ts line 924); a spec-level
`DuplicateLine` failure leaves the set unchanged. -/
def addOrKeep (line column : Nat) (label : String) (bks : List Bookmark) : List Bookmark :=
  match addBookmark bks line column label with
  | .ok l => l
  | .error _ => bks

/-- The mutation performed by the `askForBookmarkLabel` callback
(extension.ts lines 921-924) once a label has been entered: remove the old
bookmark when `index >= 0`, then add the labeled one. -/
def applyBookmarkLabelRaw (index : Int) (line column : Nat) (label : String)
    (bks : List Bookmark) : List Bookmark :=
  addOrKeep line column label (removeIfIndexed index bks)

/-- The completed labeled add of `askForBookmarkLabel`: mutation followed by
the sort of extension.ts lines 930-941. -/
def applyBookmarkLabel (index : Int) (line column : Nat) (label : String)
    (bks : List Bookmark) : List Bookmark :=
  sortByLine (applyBookmarkLabelRaw index line column label bks)

/-! Facts about `sortByLine` and the two mutations. -/

theorem sortByLine_sorted (bks : List Bookmark) : List.Sorted byLine (sortByLine bks) :=
  List.sorted_insertionSort byLine bks

theorem sortByLine_perm (bks : List Bookmark) : (sortByLine bks).Perm bks :=
  List.perm_insertionSort byLine bks

theorem toggleRaw_not_mem (line column : Nat) (bks : List Bookmark)
    (h : line ∉ bks.map Bookmark.line) :
    addBookmark bks line column "" = .ok (List.orderedInsert byLine ⟨line, column, ""⟩ bks) ∧
    toggleRaw line column bks = List.orderedInsert byLine ⟨line, column, ""⟩ bks := by
  have hneg : indexOfBookmark bks line < 0 := by
    by_contra hc
    exact h ((indexOfBookmark_nonneg_iff bks line).mp (Int.not_lt.mp hc))
  have hadd : addBookmark bks line column "" =
      .ok (List.orderedInsert byLine ⟨line, column, ""⟩ bks) := by
    unfold addBookmark
    rw [if_neg h]
  refine ⟨hadd, ?_⟩
  unfold toggleRaw
  rw [if_pos hneg, hadd]

theorem toggleRaw_mem (line column : Nat) (bks : List Bookmark)
    (h : line ∈ bks.map Bookmark.line) :
    toggleRaw line column bks = removeFirstLine bks line := by
  have hpos : 0 ≤ indexOfBookmark bks line := (indexOfBookmark_nonneg_iff bks line).mpr h
  have hlt := indexOfBookmark_toNat_lt bks line hpos
  unfold toggleRaw
  rw [if_neg (Int.not_lt.mpr hpos)]
  unfold removeBookmark
  rw [if_pos hlt]
  exact eraseIdx_indexOfBookmark bks line hpos

theorem toggle_map_line_mem (line column : Nat) (bks : List Bookmark)
    (h : line ∈ bks.map Bookmark.line) :
    ((toggle line column bks).map Bookmark.line).Perm ((bks.map Bookmark.line).erase line) := by
  unfold toggle
  rw [toggleRaw_mem line column bks h, ← removeFirstLine_map_line]
  exact (sortByLine_perm (removeFirstLine bks line)).map Bookmark.line

theorem toggle_map_line_not_mem (line column : Nat) (bks : List Bookmark)
    (h : line ∉ bks.map Bookmark.line) :
    ((toggle line column bks).map Bookmark.line).Perm (line :: bks.map Bookmark.line) := by
  unfold toggle
  rw [(toggleRaw_not_mem line column bks h).2]
  refine ((sortByLine_perm _).map Bookmark.line).trans ?_
  simpa using (List.perm_orderedInsert byLine (⟨line, column, ""⟩ : Bookmark) bks).map Bookmark.line

theorem toggle_lines_nodup (line column : Nat) (bks : List Bookmark)
    (hnodup : (bks.map Bookmark.line).Nodup) :
    ((toggle line column bks).map Bookmark.line).Nodup := by
  by_cases h : line ∈ bks.map Bookmark.line
  · exact ((toggle_map_line_mem line column bks h).symm.nodup
      (hnodup.sublist (List.erase_sublist line (bks.map Bookmark.line))))
  · exact ((toggle_map_line_not_mem line column bks h).symm.nodup
      (List.nodup_cons.mpr ⟨h, hnodup⟩))

theorem removeIfIndexed_lines_nodup (index : Int) (bks : List Bookmark)
    (hnodup : (bks.map Bookmark.line).Nodup) :
    ((removeIfIndexed index bks).map Bookmark.line).Nodup := by
  unfold removeIfIndexed
  by_cases hi : 0 ≤ index
  · rw [if_pos hi]
    unfold removeBookmark
    by_cases hlen : index.toNat < bks.length
    · rw [if_pos hlen]
      exact hnodup.sublist ((List.eraseIdx_sublist bks index.toNat).map Bookmark.line)
    · rw [if_neg hlen]
      exact hnodup
  · rw [if_neg hi]
    exact hnodup

theorem addOrKeep_lines_nodup (line column : Nat) (label : String) (bks : List Bookmark)
    (hnodup : (bks.map Bookmark.line).Nodup) :
    ((addOrKeep line column label bks).map Bookmark.line).Nodup := by
  unfold addOrKeep addBookmark
  by_cases hm : line ∈ bks.map Bookmark.line
  · rw [if_pos hm]
    exact hnodup
  · rw [if_neg hm]
    have hperm := (List.perm_orderedInsert byLine (⟨line, column, label⟩ : Bookmark) bks).map
      Bookmark.line
    refine hperm.symm.nodup ?_
    simpa using List.nodup_cons.mpr ⟨hm, hnodup⟩

theorem applyBookmarkLabelRaw_lines_nodup (index : Int) (line column : Nat) (label : String)
    (bks : List Bookmark) (hnodup : (bks.map Bookmark.line).Nodup) :
    ((applyBookmarkLabelRaw index line column label bks).map Bookmark.line).Nodup :=
  addOrKeep_lines_nodup line column label _ (removeIfIndexed_lines_nodup index bks hnodup)

theorem pairwise_lt_of_pairwise_le_nodup :
    ∀ L : List Nat, L.Pairwise (· ≤ ·) → L.Nodup → L.Pairwise (· < ·) := by
  intro L
  induction L with
  | nil => intro _ _; exact List.Pairwise.nil
  | cons a t ih =>
    intro hle hnd
    rw [List.pairwise_cons] at hle ⊢
    rw [List.nodup_cons] at hnd
    refine ⟨?_, ih hle.2 hnd.2⟩
    intro b hb
    exact Nat.lt_of_le_of_ne (hle.1 b hb) (fun hEq => hnd.1 (hEq ▸ hb))

theorem sorted_lines_pairwise_le (bks : List Bookmark) (h : List.Sorted byLine bks) :
    (bks.map Bookmark.line).Pairwise (· ≤ ·) :=
  List.pairwise_map.mpr h

/-- C4: after every completed `toggle` (add or remove) and after every
completed labeled add via `askForBookmarkLabel`, the file's bookmark
sequence is sorted ascending by line (both end with the same comparator
sort); under the at-most-one-bookmark-per-line invariant the resulting line
sequence is strictly ascending. -/
theorem c4_sorted_after_mutation (line column : Nat) (label : String) (index : Int)
    (bks : List Bookmark) (hnodup : (bks.map Bookmark.line).Nodup) :
    List.Sorted byLine (toggle line column bks) ∧
    List.Sorted byLine (applyBookmarkLabel index line column label bks) ∧
    ((toggle line column bks).map Bookmark.line).Pairwise (· < ·) ∧
    ((applyBookmarkLabel index line column label bks).map Bookmark.line).Pairwise (· < ·) := by
  have hs1 : List.Sorted byLine (toggle line column bks) := sortByLine_sorted _
  have hs2 : List.Sorted byLine (applyBookmarkLabel index line column label bks) :=
    sortByLine_sorted _
  refine ⟨hs1, hs2, ?_, ?_⟩
  · exact pairwise_lt_of_pairwise_le_nodup _ (sorted_lines_pairwise_le _ hs1)
      (toggle_lines_nodup line column bks hnodup)
  · refine pairwise_lt_of_pairwise_le_nodup _ (sorted_lines_pairwise_le _ hs2) ?_
    have hraw := applyBookmarkLabelRaw_lines_nodup index line column label bks hnodup
    exact ((sortByLine_perm (applyBookmarkLabelRaw index line column label bks)).map
      Bookmark.line).symm.nodup hraw

/-- Witness for C4: toggling line 1 in a file with bookmarks at lines 2 and
0 yields a strictly ascending sequence. -/
theorem c4_witness :
    ((toggle 1 5 [⟨2, 0, "a"⟩, ⟨0, 0, ""⟩]).map Bookmark.line).Pairwise (· < ·) :=
  (c4_sorted_after_mutation 1 5 "z" (-1) [⟨2, 0, "a"⟩, ⟨0, 0, ""⟩] (by decide)).2.2.1

/-- C5: `toggle` removes the bookmark at the cursor line when
`indexOfBookmark` finds one (non-negative index) and adds a new bookmark at
the cursor position otherwise; the add never fires on a line that already
has a bookmark, and the at-most-one-bookmark-per-line invariant is
preserved. -/
theorem c5_toggle_add_remove (line column : Nat) (bks : List Bookmark)
    (hnodup : (bks.map Bookmark.line).Nodup) :
    (0 ≤ indexOfBookmark bks line ↔ line ∈ bks.map Bookmark.line) ∧
    (line ∈ bks.map Bookmark.line →
      ((toggle line column bks).map Bookmark.line).Perm
        ((bks.map Bookmark.line).erase line)) ∧
    (line ∉ bks.map Bookmark.line →
      addBookmark bks line column "" = .ok (List.orderedInsert byLine ⟨line, column, ""⟩ bks) ∧
      ((toggle line column bks).map Bookmark.line).Perm (line :: bks.map Bookmark.line)) ∧
    ((toggle line column bks).map Bookmark.line).Nodup := by
  refine ⟨indexOfBookmark_nonneg_iff bks line, ?_, ?_, toggle_lines_nodup line column bks hnodup⟩
  · exact toggle_map_line_mem line column bks
  · intro h
    exact ⟨(toggleRaw_not_mem line column bks h).1, toggle_map_line_not_mem line column bks h⟩

/-- Witness for C5: toggling on an existing bookmark's line removes it. -/
theorem c5_witness :
    ((toggle 2 7 [⟨2, 0, "a"⟩, ⟨4, 1, ""⟩]).map Bookmark.line).Perm
      (([2, 4] : List Nat).erase 2) :=
  (c5_toggle_add_remove 2 7 [⟨2, 0, "a"⟩, ⟨4, 1, ""⟩] (by decide)).2.1 (by decide)

/-! ## Navigation
(`jumpToNext` extension.ts lines 795-844, `jumpToPrevious` lines 846-895,
`checkBookmarks` lines 897-903) -/

/-- Direction of navigation, mirroring `Directions` of the core API. -/
inductive Directions
  | Forward
  | Backward
deriving DecidableEq, Repr

/-- Modelled from the spec: the `NO_BOOKMARKS_BEFORE` sentinel (a numeric
constant of the missing core package; only distinctness of the three values
matters). -/
def NO_BOOKMARKS_BEFORE : Int := -1

/-- Modelled from the spec: the `NO_BOOKMARKS_AFTER` sentinel. -/
def NO_BOOKMARKS_AFTER : Int := -2

/-- Modelled from the spec: the `NO_MORE_BOOKMARKS` sentinel for within-file
search on an empty set. -/
def NO_MORE_BOOKMARKS : Int := -3

/-- The resolved value of `nextBookmark`: a sentinel number or a
`vscode.Position`, mirroring the `typeof next === "number"` test of the
jump commands. -/
inductive NextResult
  | num (n : Int)
  | pos (p : Pos)
deriving DecidableEq, Repr

/-- Strict Position-model ordering: by line, then by column. -/
def posBefore (a b : Pos) : Bool :=
  decide (a.line < b.line) || (decide (a.line = b.line) && decide (a.character < b.character))

/-- Modelled from the spec: `nextWithinFile` (`BookmarkedFile.nextBookmark`
of the missing core package) — among the set's bookmarks find the first one
strictly after (`Forward`) or the nearest one strictly before (`Backward`)
the current position; `NO_BOOKMARKS_AFTER` / `NO_BOOKMARKS_BEFORE` when none
exists, `NO_MORE_BOOKMARKS` when the set is empty. -/
def nextBookmark (bks : List Bookmark) (cur : Pos) (dir : Directions) : NextResult :=
  if bks.isEmpty then .num NO_MORE_BOOKMARKS
  else
    match dir with
    | .Forward =>
      match bks.find? (fun b => posBefore cur ⟨b.line, b.column⟩) with
      | some b => .pos ⟨b.line, b.column⟩
      | none => .num NO_BOOKMARKS_AFTER
    | .Backward =>
      match bks.reverse.find? (fun b => posBefore ⟨b.line, b.column⟩ cur) with
      | some b => .pos ⟨b.line, b.column⟩
      | none => .num NO_BOOKMARKS_BEFORE

/-- Modelled from the spec: `BookmarksController.fromUri` — look a file's
bookmark set up in the store by its path key. -/
def fromUri (store : Store) (path : String) : Option (List Bookmark) :=
  (store.find? (fun q => q.1 == path)).map Prod.snd

/-- Modelled from the spec: the store entries strictly after the first
occurrence of `fromFile` in the file ordering. -/
def candidatesAfter : Store → String → Store
  | [], _ => []
  | q :: rest, f => if q.1 = f then rest else candidatesAfter rest f

/-- Modelled from the spec: the store entries strictly before the first
occurrence of `fromFile` in the file ordering. -/
def candidatesBefore : Store → String → Store
  | [], _ => []
  | q :: rest, f => if q.1 = f then [] else q :: candidatesBefore rest f

/-- Modelled from the spec: `nextFileWithBookmarks`
(`BookmarksController.nextDocumentWithBookmarks` of the missing core
package) — iterate the store's path ordering circularly starting just after
(`Forward`) or just before (`Backward`) `fromFile`, skipping files with zero
bookmarks; `none` models the `NO_MORE_BOOKMARKS` sentinel when no other
file qualifies. -/
def directionOrdered (store : Store) (dir : Directions) : Store :=
  match dir with
  | Directions.Forward => store
  | Directions.Backward => store.reverse

def nextDocumentWithBookmarks (store : Store) (fromFile : String) (dir : Directions) :
    Option String :=
  match (candidatesAfter (directionOrdered store dir) fromFile ++
      candidatesBefore (directionOrdered store dir) fromFile).find? (fun q => !q.2.isEmpty) with
  | some q => some q.1
  | none => none

/-- `checkBookmarks` (extension.ts lines 897-903): the first component
records whether the "No more bookmarks" informational message was shown, the
second is the returned boolean (`false` for the two within-file
sentinels, `true` otherwise). -/
def checkBookmarks (result : NextResult) : Bool × Bool :=
  match result with
  | .num n =>
    if n = NO_BOOKMARKS_BEFORE ∨ n = NO_BOOKMARKS_AFTER then (true, false) else (false, true)
  | .pos _ => (false, true)

/-- What a jump command ends up doing. -/
inductive JumpAction
  | revealHere (p : Pos)
  | revealIn (path : String) (p : Pos)
  | message
  | noAction
deriving DecidableEq, Repr

/-- Outcome of a jump command: whether `nextDocumentWithBookmarks` was
consulted, and the resulting action. -/
structure JumpResult where
  consultedCrossFile : Bool
  action : JumpAction
deriving DecidableEq, Repr

/-- `jumpToNext` (extension.ts lines 795-844).  When the within-file search
resolves to a number, `checkBookmarks` is consulted (a within-file sentinel
shows the message and stops); otherwise the cross-file navigation runs and,
for a different target document, `showTextDocument` refreshes
`bookmarks.activeBookmark` to the target file's set (the
`onDidChangeActiveTextEditor` handler, extension.ts lines 109-116) before
`bookmarks[0]` is revealed — modelled by reading `fromUri store target`. -/
def jumpToNext (store : Store) (activePath : String) (cursor : Pos) : JumpResult :=
  match fromUri store activePath with
  | none => ⟨false, .noAction⟩
  | some bks =>
    match nextBookmark bks cursor .Forward with
    | .pos p => ⟨false, .revealHere p⟩
    | .num n =>
      if (checkBookmarks (.num n)).2 = false then ⟨false, .message⟩
      else
        match nextDocumentWithBookmarks store activePath .Forward with
        | none => ⟨true, .noAction⟩
        | some target =>
          if target = activePath then
            match bks.head? with
            | some b => ⟨true, .revealHere ⟨b.line, b.column⟩⟩
            | none => ⟨true, .noAction⟩
          else
            match fromUri store target with
            | some (b :: _) => ⟨true, .revealIn target ⟨b.line, b.column⟩⟩
            | _ => ⟨true, .noAction⟩

/-- `jumpToPrevious` (extension.ts lines 846-895): `checkBookmarks` runs
first, then the `typeof next === "number"` test routes to the Backward
cross-file navigation, revealing the last bookmark
(`bookmarks[bookmarks.length - 1]`) of the target file. -/
def jumpToPrevious (store : Store) (activePath : String) (cursor : Pos) : JumpResult :=
  match fromUri store activePath with
  | none => ⟨false, .noAction⟩
  | some bks =>
    if (checkBookmarks (nextBookmark bks cursor .Backward)).2 = false then ⟨false, .message⟩
    else
      match nextBookmark bks cursor .Backward with
      | .pos p => ⟨false, .revealHere p⟩
      | .num _ =>
        match nextDocumentWithBookmarks store activePath .Backward with
        | none => ⟨true, .noAction⟩
        | some target =>
          if target = activePath then
            match bks.getLast? with
            | some b => ⟨true, .revealHere ⟨b.line, b.column⟩⟩
            | none => ⟨true, .noAction⟩
          else
            match fromUri store target with
            | some tb =>
              match tb.getLast? with
              | some b => ⟨true, .revealIn target ⟨b.line, b.column⟩⟩
              | none => ⟨true, .noAction⟩
            | none => ⟨true, .noAction⟩

/-! Navigator lemmas. -/

theorem nextBookmark_num_cases (bks : List Bookmark) (cur : Pos) (dir : Directions) (n : Int)
    (h : nextBookmark bks cur dir = .num n) :
    n = NO_BOOKMARKS_BEFORE ∨ n = NO_BOOKMARKS_AFTER ∨ n = NO_MORE_BOOKMARKS := by
  unfold nextBookmark at h
  by_cases he : bks.isEmpty
  · rw [if_pos he] at h
    cases h
    right; right; rfl
  · rw [if_neg he] at h
    cases dir with
    | Forward =>
      simp only at h
      cases hf : bks.find? (fun b => posBefore cur ⟨b.line, b.column⟩) with
      | none => rw [hf] at h; cases h; right; left; rfl
      | some b => rw [hf] at h; cases h
    | Backward =>
      simp only at h
      cases hf : bks.reverse.find? (fun b => posBefore ⟨b.line, b.column⟩ cur) with
      | none => rw [hf] at h; cases h; left; rfl
      | some b => rw [hf] at h; cases h

theorem nextBookmark_pos_mem (bks : List Bookmark) (cur : Pos) (dir : Directions) (p : Pos)
    (h : nextBookmark bks cur dir = .pos p) :
    ∃ b, b ∈ bks ∧ p = ⟨b.line, b.column⟩ := by
  unfold nextBookmark at h
  by_cases he : bks.isEmpty
  · rw [if_pos he] at h
    cases h
  · rw [if_neg he] at h
    cases dir with
    | Forward =>
      simp only at h
      cases hf : bks.find? (fun b => posBefore cur ⟨b.line, b.column⟩) with
      | none => rw [hf] at h; cases h
      | some b =>
        rw [hf] at h
        cases h
        exact ⟨b, List.mem_of_find?_eq_some hf, rfl⟩
    | Backward =>
      simp only at h
      cases hf : bks.reverse.find? (fun b => posBefore ⟨b.line, b.column⟩ cur) with
      | none => rw [hf] at h; cases h
      | some b =>
        rw [hf] at h
        cases h
        exact ⟨b, List.mem_reverse.mp (List.mem_of_find?_eq_some hf), rfl⟩

theorem candidatesAfter_sublist : ∀ (l : Store) (f : String), (candidatesAfter l f).Sublist l := by
  intro l f
  induction l with
  | nil => simp [candidatesAfter]
  | cons q rest ih =>
    unfold candidatesAfter
    by_cases hq : q.1 = f
    · rw [if_pos hq]
      exact List.sublist_cons_self q rest
    · rw [if_neg hq]
      exact ih.cons q

theorem candidatesBefore_sublist : ∀ (l : Store) (f : String), (candidatesBefore l f).Sublist l := by
  intro l f
  induction l with
  | nil => simp [candidatesBefore]
  | cons q rest ih =>
    unfold candidatesBefore
    by_cases hq : q.1 = f
    · rw [if_pos hq]
      exact List.nil_sublist _
    · rw [if_neg hq]
      exact ih.cons₂ q

theorem candidatesAfter_key_ne : ∀ (l : Store) (f : String), (l.map Prod.fst).Nodup →
    ∀ q ∈ candidatesAfter l f, q.1 ≠ f := by
  intro l f
  induction l with
  | nil => intro _ q hq; simp [candidatesAfter] at hq
  | cons q0 rest ih =>
    intro hnd q hq
    rw [List.map_cons, List.nodup_cons] at hnd
    unfold candidatesAfter at hq
    by_cases hq0 : q0.1 = f
    · rw [if_pos hq0] at hq
      intro hEq
      exact hnd.1 (hq0 ▸ hEq ▸ List.mem_map_of_mem Prod.fst hq)
    · rw [if_neg hq0] at hq
      exact ih hnd.2 q hq

theorem candidatesBefore_key_ne : ∀ (l : Store) (f : String),
    ∀ q ∈ candidatesBefore l f, q.1 ≠ f := by
  intro l f
  induction l with
  | nil => intro q hq; simp [candidatesBefore] at hq
  | cons q0 rest ih =>
    intro q hq
    unfold candidatesBefore at hq
    by_cases hq0 : q0.1 = f
    · rw [if_pos hq0] at hq
      simp at hq
    · rw [if_neg hq0] at hq
      rcases List.mem_cons.mp hq with hq | hq
      · rw [hq]; exact hq0
      · exact ih q hq

theorem nextDocumentWithBookmarks_some (store : Store) (fromFile : String) (dir : Directions)
    (t : String) (h : nextDocumentWithBookmarks store fromFile dir = some t) :
    ∃ tb, (t, tb) ∈ store ∧ tb ≠ [] ∧ ((store.map Prod.fst).Nodup → t ≠ fromFile) := by
  unfold nextDocumentWithBookmarks at h
  set ordered := directionOrdered store dir with hord
  have hmem_ord : ∀ q : String × List Bookmark, q ∈ ordered → q ∈ store := by
    intro q hq
    rw [hord] at hq
    cases dir with
    | Forward => exact hq
    | Backward => exact List.mem_reverse.mp hq
  have hnd_ord : (store.map Prod.fst).Nodup → (ordered.map Prod.fst).Nodup := by
    intro hnd
    rw [hord]
    cases dir with
    | Forward => exact hnd
    | Backward =>
      show ((store.reverse).map Prod.fst).Nodup
      rw [List.map_reverse, List.nodup_reverse]
      exact hnd
  cases hf : (candidatesAfter ordered fromFile ++ candidatesBefore ordered fromFile).find?
      (fun q => !q.2.isEmpty) with
  | none => rw [hf] at h; cases h
  | some q =>
    rw [hf] at h
    cases h
    have hqmem := List.mem_of_find?_eq_some hf
    have hqpred := List.find?_some hf
    have hq_ord : q ∈ ordered := by
      rcases List.mem_append.mp hqmem with hq | hq
      · exact (candidatesAfter_sublist ordered fromFile).subset hq
      · exact (candidatesBefore_sublist ordered fromFile).subset hq
    refine ⟨q.2, by simpa using hmem_ord q hq_ord, ?_, ?_⟩
    · intro hnil
      rw [hnil] at hqpred
      simp at hqpred
    · intro hnd
      rcases List.mem_append.mp hqmem with hq | hq
      · exact candidatesAfter_key_ne ordered fromFile (hnd_ord hnd) q hq
      · exact candidatesBefore_key_ne ordered fromFile q hq

theorem fromUri_of_mem (store : Store) (t : String) (tb : List Bookmark)
    (hnd : (store.map Prod.fst).Nodup) (hmem : (t, tb) ∈ store) :
    fromUri store t = some tb := by
  induction store with
  | nil => simp at hmem
  | cons q rest ih =>
    rw [List.map_cons, List.nodup_cons] at hnd
    unfold fromUri
    by_cases hq : q.1 = t
    · have hfind : (q :: rest).find? (fun r => r.1 == t) = some q := by
        simp [List.find?_cons, hq]
      rw [hfind]
      rcases List.mem_cons.mp hmem with hEq | hmemr
      · rw [← hEq]
        rfl
      · exfalso
        exact hnd.1 (hq ▸ (by simpa using List.mem_map_of_mem Prod.fst hmemr))
    · have hfind : (q :: rest).find? (fun r => r.1 == t) = rest.find? (fun r => r.1 == t) := by
        simp [List.find?_cons, hq]
      rw [hfind]
      rcases List.mem_cons.mp hmem with hEq | hmemr
      · exfalso
        exact hq (by rw [← hEq])
      · exact ih hnd.2 hmemr

theorem checkBookmarks_num (n : Int) :
    checkBookmarks (.num n) =
      if n = NO_BOOKMARKS_BEFORE ∨ n = NO_BOOKMARKS_AFTER then (true, false)
      else (false, true) := rfl

theorem checkBookmarks_snd_true (n : Int) (h : (checkBookmarks (.num n)).2 = true) :
    n ≠ NO_BOOKMARKS_BEFORE ∧ n ≠ NO_BOOKMARKS_AFTER := by
  by_cases hcond : n = NO_BOOKMARKS_BEFORE ∨ n = NO_BOOKMARKS_AFTER
  · exfalso
    rw [checkBookmarks_num, if_pos hcond] at h
    cases h
  · exact not_or.mp hcond

theorem jumpToNext_of_pos (store : Store) (activePath : String) (cursor : Pos)
    (bks : List Bookmark) (hactive : fromUri store activePath = some bks) (p : Pos)
    (hnb : nextBookmark bks cursor .Forward = .pos p) :
    jumpToNext store activePath cursor = ⟨false, .revealHere p⟩ := by
  simp only [jumpToNext, hactive, hnb]

theorem jumpToNext_of_within_sentinel (store : Store) (activePath : String) (cursor : Pos)
    (bks : List Bookmark) (hactive : fromUri store activePath = some bks) (n : Int)
    (hnb : nextBookmark bks cursor .Forward = .num n)
    (hn : n = NO_BOOKMARKS_BEFORE ∨ n = NO_BOOKMARKS_AFTER) :
    jumpToNext store activePath cursor = ⟨false, .message⟩ := by
  have hck : (checkBookmarks (.num n)).2 = false := by
    rw [checkBookmarks_num, if_pos hn]
  simp only [jumpToNext, hactive, hnb, hck]
  rw [if_pos trivial]

theorem jumpToPrevious_of_pos (store : Store) (activePath : String) (cursor : Pos)
    (bks : List Bookmark) (hactive : fromUri store activePath = some bks) (p : Pos)
    (hnb : nextBookmark bks cursor .Backward = .pos p) :
    jumpToPrevious store activePath cursor = ⟨false, .revealHere p⟩ := by
  have hck : (checkBookmarks (NextResult.pos p)).2 = true := rfl
  simp only [jumpToPrevious, hactive, hnb, hck]
  simp

theorem jumpToPrevious_of_within_sentinel (store : Store) (activePath : String) (cursor : Pos)
    (bks : List Bookmark) (hactive : fromUri store activePath = some bks) (n : Int)
    (hnb : nextBookmark bks cursor .Backward = .num n)
    (hn : n = NO_BOOKMARKS_BEFORE ∨ n = NO_BOOKMARKS_AFTER) :
    jumpToPrevious store activePath cursor = ⟨false, .message⟩ := by
  have hck : (checkBookmarks (nextBookmark bks cursor .Backward)).2 = false := by
    rw [hnb, checkBookmarks_num, if_pos hn]
  simp only [jumpToPrevious, hactive, hck]
  rw [if_pos trivial]

/-- C6: both jump commands search within the active file first (a found
position is revealed without consulting the cross-file navigation); the
cross-file navigation is consulted only when the within-file search is
exhausted with the `NO_MORE_BOOKMARKS` sentinel; and on reaching a
different target file, `jumpToNext` reveals that file's first bookmark
(index 0) while `jumpToPrevious` reveals its last (index length-1). -/
theorem c6_two_level_navigation (store : Store) (activePath : String) (cursor : Pos)
    (hkeys : (store.map Prod.fst).Nodup) (bks : List Bookmark)
    (hactive : fromUri store activePath = some bks) :
    ((jumpToNext store activePath cursor).consultedCrossFile = true →
      nextBookmark bks cursor .Forward = .num NO_MORE_BOOKMARKS) ∧
    (∀ p, nextBookmark bks cursor .Forward = .pos p →
      jumpToNext store activePath cursor = ⟨false, .revealHere p⟩) ∧
    (∀ t, nextBookmark bks cursor .Forward = .num NO_MORE_BOOKMARKS →
      nextDocumentWithBookmarks store activePath .Forward = some t → t ≠ activePath →
      ∃ b rest, fromUri store t = some (b :: rest) ∧
        (jumpToNext store activePath cursor).action = .revealIn t ⟨b.line, b.column⟩) ∧
    ((jumpToPrevious store activePath cursor).consultedCrossFile = true →
      nextBookmark bks cursor .Backward = .num NO_MORE_BOOKMARKS) ∧
    (∀ p, nextBookmark bks cursor .Backward = .pos p →
      jumpToPrevious store activePath cursor = ⟨false, .revealHere p⟩) ∧
    (∀ t, nextBookmark bks cursor .Backward = .num NO_MORE_BOOKMARKS →
      nextDocumentWithBookmarks store activePath .Backward = some t → t ≠ activePath →
      ∃ tb b, fromUri store t = some tb ∧ tb.getLast? = some b ∧
        (jumpToPrevious store activePath cursor).action = .revealIn t ⟨b.line, b.column⟩) := by
  refine ⟨?_, ?_, ?_, ?_, ?_, ?_⟩
  · intro hc
    cases hnb : nextBookmark bks cursor .Forward with
    | pos p =>
      rw [jumpToNext_of_pos store activePath cursor bks hactive p hnb] at hc
      cases hc
    | num n =>
      rcases nextBookmark_num_cases bks cursor .Forward n hnb with h1 | h1 | h1
      · rw [jumpToNext_of_within_sentinel store activePath cursor bks hactive n hnb
          (Or.inl h1)] at hc
        cases hc
      · rw [jumpToNext_of_within_sentinel store activePath cursor bks hactive n hnb
          (Or.inr h1)] at hc
        cases hc
      · rw [h1]
  · exact jumpToNext_of_pos store activePath cursor bks hactive
  · intro t hnb hdoc hne
    rcases nextDocumentWithBookmarks_some store activePath .Forward t hdoc with
      ⟨tb, htmem, htne, _⟩
    have hfu : fromUri store t = some tb := fromUri_of_mem store t tb hkeys htmem
    cases tb with
    | nil => exact absurd rfl htne
    | cons b rest =>
      refine ⟨b, rest, hfu, ?_⟩
      have hck : (checkBookmarks (.num NO_MORE_BOOKMARKS)).2 = true := rfl
      simp only [jumpToNext, hactive, hnb, hck, hdoc, if_neg hne, hfu]
      simp
  · intro hc
    cases hnb : nextBookmark bks cursor .Backward with
    | pos p =>
      rw [jumpToPrevious_of_pos store activePath cursor bks hactive p hnb] at hc
      cases hc
    | num n =>
      rcases nextBookmark_num_cases bks cursor .Backward n hnb with h1 | h1 | h1
      · rw [jumpToPrevious_of_within_sentinel store activePath cursor bks hactive n hnb
          (Or.inl h1)] at hc
        cases hc
      · rw [jumpToPrevious_of_within_sentinel store activePath cursor bks hactive n hnb
          (Or.inr h1)] at hc
        cases hc
      · rw [h1]
  · exact jumpToPrevious_of_pos store activePath cursor bks hactive
  · intro t hnb hdoc hne
    rcases nextDocumentWithBookmarks_some store activePath .Backward t hdoc with
      ⟨tb, htmem, htne, _⟩
    have hfu : fromUri store t = some tb := fromUri_of_mem store t tb hkeys htmem
    rcases List.getLast?_eq_getLast_of_ne_nil htne with hlast
    cases hl : tb.getLast? with
    | none =>
      exfalso
      rw [List.getLast?_eq_none_iff] at hl
      exact htne hl
    | some b =>
      refine ⟨tb, b, hfu, hl, ?_⟩
      have hck : (checkBookmarks (nextBookmark bks cursor .Backward)).2 = true := by
        rw [hnb]
        rfl
      simp only [jumpToPrevious, hactive, hnb, hck, hdoc, if_neg hne, hfu, hl]
      rw [if_neg (by decide)]

/-- Witness for C6: a two-file store where the active file has no bookmarks;
`jumpToNext` consults the cross-file navigation and reveals the first
bookmark of the other file. -/
theorem c6_witness :
    ∃ b rest, fromUri [("a", []), ("b", [⟨3, 1, "x"⟩])] "b" = some (b :: rest) ∧
      (jumpToNext [("a", []), ("b", [⟨3, 1, "x"⟩])] "a" ⟨0, 0⟩).action =
        .revealIn "b" ⟨b.line, b.column⟩ :=
  (c6_two_level_navigation [("a", []), ("b", [⟨3, 1, "x"⟩])] "a" ⟨0, 0⟩ (by decide) []
    (by decide)).2.2.1 "b" (by decide) (by decide) (by decide)

/-- C7: within-file navigation exhaustion is always communicated as one of
the three sentinel values (never an exception — `nextBookmark` is a total
function into `NextResult`), and `checkBookmarks` turns the two within-file
sentinels into an informational message returning `false` while letting the
`NO_MORE_BOOKMARKS` case and positions pass with `true` and no message. -/
theorem c7_sentinels_are_values (bks : List Bookmark) (cur : Pos) (dir : Directions) :
    ((∃ n, nextBookmark bks cur dir = .num n ∧
        (n = NO_BOOKMARKS_BEFORE ∨ n = NO_BOOKMARKS_AFTER ∨ n = NO_MORE_BOOKMARKS)) ∨
      (∃ b, b ∈ bks ∧ nextBookmark bks cur dir = .pos ⟨b.line, b.column⟩)) ∧
    checkBookmarks (.num NO_BOOKMARKS_BEFORE) = (true, false) ∧
    checkBookmarks (.num NO_BOOKMARKS_AFTER) = (true, false) ∧
    checkBookmarks (.num NO_MORE_BOOKMARKS) = (false, true) ∧
    ∀ p, checkBookmarks (.pos p) = (false, true) := by
  refine ⟨?_, by decide, by decide, by decide, fun p => rfl⟩
  cases hnb : nextBookmark bks cur dir with
  | num n => exact Or.inl ⟨n, rfl, nextBookmark_num_cases bks cur dir n hnb⟩
  | pos p =>
    rcases nextBookmark_pos_mem bks cur dir p hnb with ⟨b, hmem, hp⟩
    exact Or.inr ⟨b, hmem, by rw [hp]⟩

/-! ## Handler effect traces
(command handlers of `activate`, and the `onDidChangeTextDocument`
handler, extension.ts lines 118-142) -/

/-- Observable effects a handler performs, in order. -/
inductive Effect
  | mutateStore
  | save
  | setDecorations
  | showMessage
  | callSticky
deriving DecidableEq, Repr

/-- The `bookmarks.toggle` command (extension.ts lines 947-985): guard on an
active editor, mutate, sort, `saveWorkspaceState()`, `updateDecorations()`. -/
def toggleCommand (hasActiveEditor : Bool) (line column : Nat) (bks : List Bookmark) :
    List Bookmark × List Effect :=
  if hasActiveEditor then
    (toggle line column bks, [Effect.mutateStore, Effect.save, Effect.setDecorations])
  else (bks, [Effect.showMessage])

/-- The `askForBookmarkLabel` input-box callback (extension.ts lines
912-944): `labelInput = none` models the user dismissing the box
(`undefined`); an empty label with an empty/undefined old label (or in
jump-to-position mode) is rejected with a warning; otherwise the mutation of
`applyBookmarkLabel` runs followed by `saveWorkspaceState()` and
`updateDecorations()`. -/
def askForBookmarkLabel (index : Int) (line column : Nat) (oldLabel : Option String)
    (jumpToPosition : Bool) (labelInput : Option String) (bks : List Bookmark) :
    List Bookmark × List Effect :=
  match labelInput with
  | none => (bks, [])
  | some lbl =>
    if lbl = "" ∧ (oldLabel = some "" ∨ jumpToPosition = true) then (bks, [Effect.showMessage])
    else
      (applyBookmarkLabel index line column lbl bks,
        [Effect.mutateStore, Effect.save, Effect.setDecorations])

/-- The `bookmarks.deleteBookmark` command (extension.ts lines 223-229):
look the bookmark up by line, remove it, save, redraw. -/
def deleteBookmarkCommand (bks : List Bookmark) (line : Nat) : List Bookmark × List Effect :=
  (removeIfIndexed (indexOfBookmark bks line) bks,
    [Effect.mutateStore, Effect.save, Effect.setDecorations])

/-- The `bookmarks.clear` command (extension.ts lines 446-456): guard on an
active editor, clear the active file's set, save, redraw. -/
def clearCommand (hasActiveEditor : Bool) (bks : List Bookmark) : List Bookmark × List Effect :=
  if hasActiveEditor then ([], [Effect.mutateStore, Effect.save, Effect.setDecorations])
  else (bks, [Effect.showMessage])

/-- The `bookmarks.clearFromAllFiles` command (extension.ts lines 458-462):
clear every file's set (`bookmarks.clearAll()`, modelled from the spec as
emptying every File Bookmark Set), save, redraw. -/
def clearFromAllFilesCommand (store : Store) : Store × List Effect :=
  (store.map (fun q => (q.1, ([] : List Bookmark))),
    [Effect.mutateStore, Effect.save, Effect.setDecorations])

/-- The `onDidChangeTextDocument` handler for a change to the active
document (extension.ts lines 118-142).  `countLine` is the tracked
`activeEditorCountLine`, `newCount` the post-edit `document.lineCount`,
`line0Text` the post-edit text of line 0, and `stickyFn` stands for
`Sticky.stickyBookmarks` of the missing core package (given the pre-edit
line count and the set, it returns the adjusted set and the
`updatedBookmark` flag).  Returns the resulting bookmark list, the new
tracked line count, and the effect trace.  The
`useWorkaroundForFormatters` branch redraws and returns early. -/
def onTextChange (workaround : Bool) (countLine newCount : Nat) (line0Text : String)
    (stickyFn : Nat → List Bookmark → List Bookmark × Bool) (bks : List Bookmark) :
    List Bookmark × Nat × List Effect :=
  if workaround then
    ((updateDecorations newCount line0Text bks).bookmarks, countLine, [Effect.setDecorations])
  else
    ((updateDecorations newCount line0Text
        (if 0 < bks.length then (stickyFn countLine bks).1 else bks)).bookmarks,
      newCount,
      (if 0 < bks.length then [Effect.callSticky] else []) ++ [Effect.setDecorations] ++
        (if 0 < bks.length ∧ (stickyFn countLine bks).2 = true then [Effect.save] else []))

/-- C8: every mutating operation — toggle, labeled toggle (a completed
`askForBookmarkLabel`), delete, clear current file, clear all files, and a
text-change event whose sticky adjustment reported an update — serializes
the store back to persistent storage (`saveWorkspaceState`, the
`Effect.save` entry) before its handler completes. -/
theorem c8_save_after_mutation (line column : Nat) (index : Int) (oldLabel : Option String)
    (jumpToPosition : Bool) (lbl : String) (bks : List Bookmark) (store : Store)
    (countLine newCount : Nat) (line0Text : String)
    (stickyFn : Nat → List Bookmark → List Bookmark × Bool) :
    Effect.save ∈ (toggleCommand true line column bks).2 ∧
    (¬(lbl = "" ∧ (oldLabel = some "" ∨ jumpToPosition = true)) →
      Effect.save ∈
        (askForBookmarkLabel index line column oldLabel jumpToPosition (some lbl) bks).2) ∧
    Effect.save ∈ (deleteBookmarkCommand bks line).2 ∧
    Effect.save ∈ (clearCommand true bks).2 ∧
    Effect.save ∈ (clearFromAllFilesCommand store).2 ∧
    (0 < bks.length → (stickyFn countLine bks).2 = true →
      Effect.save ∈ (onTextChange false countLine newCount line0Text stickyFn bks).2.2) := by
  refine ⟨by simp [toggleCommand], ?_, by simp [deleteBookmarkCommand], by simp [clearCommand],
    by simp [clearFromAllFilesCommand], ?_⟩
  · intro hreject
    simp [askForBookmarkLabel, hreject]
  · intro hlen hupd
    simp [onTextChange, hlen, hupd]

/-- Witness for C8: a text change whose sticky adjustment reports an update
ends with a save. -/
theorem c8_witness :
    Effect.save ∈ (onTextChange false 3 4 "x" (fun _ l => (l, true)) [⟨0, 0, ""⟩]).2.2 :=
  (c8_save_after_mutation 0 0 0 none false "l" [⟨0, 0, ""⟩] [] 3 4 "x"
    (fun _ l => (l, true))).2.2.2.2.2 (by decide) rfl

/-- C9: with `bookmarks.useWorkaroundForFormatters` enabled, a text-change
event on the active document only redraws decorations and returns early —
the sticky adjuster does not run (the result does not depend on it at all),
the tracked line count keeps its previous value, no save occurs, and every
surviving bookmark is an unchanged element of the original list (the redraw
can only drop entries, captured by the sublist relation). -/
theorem c9_workaround_frame (countLine newCount : Nat) (line0Text : String)
    (f g : Nat → List Bookmark → List Bookmark × Bool) (bks : List Bookmark) :
    (onTextChange true countLine newCount line0Text f bks).2.1 = countLine ∧
    (onTextChange true countLine newCount line0Text f bks).2.2 = [Effect.setDecorations] ∧
    (onTextChange true countLine newCount line0Text f bks).1.Sublist bks ∧
    onTextChange true countLine newCount line0Text f bks =
      onTextChange true countLine newCount line0Text g bks := by
  refine ⟨rfl, rfl, ?_, rfl⟩
  simp only [onTextChange, if_pos rfl]
  exact updateDecorations_sublist newCount line0Text bks

/-! ## The tracked pre-edit line count (`activeEditorCountLine`)
(extension.ts lines 95-102, 109-116 and 129-141) -/

/-- The extension state relevant to line-count tracking: the variable
`activeEditorCountLine` and the actual current line count of the active
document (owned by the host editor). -/
structure ExtState where
  activeEditorCountLine : Nat
  docLineCount : Nat
deriving DecidableEq, Repr

/-- Events handled by `activate`'s subscriptions that touch
`activeEditorCountLine`: an active-editor change (extension.ts lines
109-116) carrying the newly focused document's line count, and a text
change to the active document (lines 118-142) carrying the post-edit line
count, whether the active set is non-empty, and the
`useWorkaroundForFormatters` flag read for that event. -/
inductive ExtEvent
  | changeActiveEditor (docCount : Nat)
  | changeText (newCount : Nat) (hasBookmarks : Bool) (workaround : Bool)
deriving DecidableEq, Repr

/-- One handler step: the new state, and `some c` when
`Sticky.stickyBookmarks` was invoked with `c` as its pre-edit line-count
argument (extension.ts lines 130-133).  The workaround branch (lines
124-127) returns before the `activeEditorCountLine = event.document.lineCount`
refresh at line 135. -/
def extStep : ExtState → ExtEvent → ExtState × Option Nat
  | _, .changeActiveEditor c => (⟨c, c⟩, none)
  | s, .changeText newCount hasBookmarks workaround =>
    if workaround then (⟨s.activeEditorCountLine, newCount⟩, none)
    else (⟨newCount, newCount⟩, if hasBookmarks then some s.activeEditorCountLine else none)

/-- Folding a sequence of events from an initial state; activation with an
active editor initializes both components to the same count (extension.ts
line 99). -/
def extRun : ExtState → List ExtEvent → ExtState
  | s, [] => s
  | s, e :: rest => extRun (extStep s e).1 rest

/-- Whether no event of the trace used the formatter workaround. -/
def noWorkaround (evs : List ExtEvent) : Bool :=
  evs.all (fun e =>
    match e with
    | ExtEvent.changeText _ _ w => !w
    | ExtEvent.changeActiveEditor _ => true)

theorem extRun_tracks (evs : List ExtEvent) : ∀ s : ExtState,
    s.activeEditorCountLine = s.docLineCount → noWorkaround evs = true →
    (extRun s evs).activeEditorCountLine = (extRun s evs).docLineCount := by
  induction evs with
  | nil => intro s hs _; exact hs
  | cons e rest ih =>
    intro s hs hw
    simp only [noWorkaround, List.all_cons, Bool.and_eq_true] at hw
    cases e with
    | changeActiveEditor c =>
      exact ih _ rfl hw.2
    | changeText newCount hasBookmarks workaround =>
      have hwf : workaround = false := by
        have h2 := hw.1
        simp at h2
        exact h2
      rw [extRun]
      refine ih _ ?_ hw.2
      simp [extStep, hwf]

/-- C10 counterexample: with the formatter workaround enabled, a text-change
event (line count 10 → 20) skips the refresh of `activeEditorCountLine`;
at the next text-change event (with the workaround off) the sticky adjuster
is invoked with 10, while the document's pre-edit line count is 20 — so
`activeEditorCountLine` did not hold the pre-edit count of the current
event. -/
theorem c10_counterexample :
    (extStep ((extStep ⟨10, 10⟩ (ExtEvent.changeText 20 true true)).1)
        (ExtEvent.changeText 25 true false)).2 = some 10 ∧
    ((extStep ⟨10, 10⟩ (ExtEvent.changeText 20 true true)).1).docLineCount = 20 ∧
    (10 : Nat) ≠ 20 := by
  decide

/-- C10 amended: provided the formatter workaround is disabled for every
text-change event of the trace (when enabled, the handler returns before the
refresh and the tracked count goes stale), `activeEditorCountLine` always
equals the active document's pre-edit line count: it is initialized on
activation and on every active-editor change, the sticky adjuster receives
exactly that pre-edit count, and the variable is refreshed to the post-edit
count within the same handler step. -/
theorem c10_count_tracks_preedit (c : Nat) (evs : List ExtEvent) (n : Nat) (hb : Bool)
    (hw : noWorkaround evs = true) :
    (extRun ⟨c, c⟩ evs).activeEditorCountLine = (extRun ⟨c, c⟩ evs).docLineCount ∧
    (extStep (extRun ⟨c, c⟩ evs) (ExtEvent.changeText n hb false)).2 =
      (if hb then some (extRun ⟨c, c⟩ evs).docLineCount else none) ∧
    ((extStep (extRun ⟨c, c⟩ evs) (ExtEvent.changeText n hb false)).1).activeEditorCountLine
      = n := by
  have htrack := extRun_tracks evs ⟨c, c⟩ rfl hw
  refine ⟨htrack, ?_, rfl⟩
  simp [extStep, htrack]

/-- Witness for C10's amended theorem: after a workaround-free text change
(7 lines) the sticky adjuster of the next event receives the pre-edit
count 7. -/
theorem c10_witness :
    (extStep (extRun ⟨5, 5⟩ [ExtEvent.changeText 7 true false])
        (ExtEvent.changeText 9 true false)).2 =
      (if true then some (extRun ⟨5, 5⟩ [ExtEvent.changeText 7 true false]).docLineCount
       else none) :=
  (c10_count_tracks_preedit 5 [ExtEvent.changeText 7 true false] 9 true (by decide)).2.1

end Bookmarks
